import Mathlib

/-!
Verification of the tacky-borders-logger crate (src/src/lib.rs).

The crate exports six Rust declarations: the resolver `function_name!` and the
five leveled logging operations `trace!`, `debug!`, `info!`, `warn!`, `error!`.
All text is modelled as `List Char` (a sequence of characters).  The resolver's
only runtime input is the path text that the compiler produces for the nested
helper `fn f` via `std::any::type_name`, so it is embedded as a function of
that text.  A Rust panic (the slice `&name[..name.len() - 3]` when
`name.len() < 3`, or a failing `unwrap`) is modelled as `none`.
-/

namespace TackyBordersLogger

/-- The five severity levels, one per backend sink of the `log` crate. -/
inductive Severity where
  | trace
  | debug
  | info
  | warn
  | error
deriving DecidableEq, Repr

/-- One call into the external logging backend: which severity sink it targets
and the single pre-rendered string handed to it.  The five operations of
src/src/lib.rs are embedded as producers of lists of such calls, so that the
full externally visible effect of one invocation is a term of this type. -/
structure BackendCall where
  sink : Severity
  message : List Char
deriving DecidableEq, Repr

/-- Embeds `func_name.split("::")` from src/src/lib.rs line 68: Rust's greedy
left-to-right split of a string on the two-character separator.  Matches Rust
`str::split` semantics for this separator: the result is never empty, the
empty string splits to one empty segment, and adjacent separators produce
empty segments. -/
def splitOnColons : List Char → List (List Char)
  | [] => [[]]
  | [c] => [[c]]
  | c₁ :: c₂ :: rest =>
    if c₁ = ':' ∧ c₂ = ':' then
      [] :: splitOnColons rest
    else
      match splitOnColons (c₂ :: rest) with
      | [] => [[c₁]]
      | seg :: segs => (c₁ :: seg) :: segs

/-- Whether a character sequence contains two adjacent colons, i.e. an
occurrence of the module separator. -/
def hasDoubleColon : List Char → Bool
  | [] => false
  | [_] => false
  | c₁ :: c₂ :: rest =>
    if c₁ = ':' ∧ c₂ = ':' then true else hasDoubleColon (c₂ :: rest)

/-- Embeds the body of the `function_name!` macro (src/src/lib.rs lines 60-72)
as a function of the path text `name` returned by `type_name_of(f)`:
`&name[..name.len() - 3]` removes the trailing three characters (the `::f` of
the nested helper), the remainder is split on the module separator, and the
last segment is returned.  `none` models a Rust panic: `name.len() - 3`
underflows and the slice traps when `name` has fewer than 3 characters (the
code has no guard), and a `none` from the final last-segment lookup would
model the panic of its `.unwrap()`. -/
def function_name (name : List Char) : Option (List Char) :=
  if name.length < 3 then none
  else (splitOnColons (name.take (name.length - 3))).getLast?

/-- Left brace character, written by code so that format placeholders can be
spelled without literal braces. -/
def lbrace : Char := '\x7b'

/-- Right brace character. -/
def rbrace : Char := '\x7d'

/-- Minimal embedding of Rust positional format rendering (`format_args!`):
each empty-brace placeholder in the template consumes the next argument, all
other characters are copied verbatim.  Arguments are modelled as
already-displayed text.  A template with more placeholders than arguments is
rejected by the Rust compiler, so that branch is unreachable; it is modelled
as skipping the placeholder. -/
def renderFmt : List Char → List (List Char) → List Char
  | [], _ => []
  | [c], _ => [c]
  | c₁ :: c₂ :: rest, args =>
    if c₁ = lbrace ∧ c₂ = rbrace then
      match args with
      | a :: args' => a ++ renderFmt rest args'
      | [] => renderFmt rest []
    else c₁ :: renderFmt (c₂ :: rest) args

/-- The path text `std::any::type_name` produces for the nested helper `fn f`
declared by `function_name!` at a call site directly inside a function named
`fname` in module path `modulePath`: the module path, the enclosing function
name and the helper name `f`, joined by the module separator. -/
def callSitePath (modulePath fname : List Char) : List Char :=
  modulePath ++ ':' :: ':' :: (fname ++ [':', ':', 'f'])

/-- Embeds the `debug!` macro (src/src/lib.rs lines 90-96) at a call site
whose helper path text is `path`: resolve the function name, render the
caller's template and arguments, compose rendered text, a space, `[fn `, the
name and `]`, and forward the result once to the backend's debug sink.
`none` propagates a resolver panic. -/
def debug (path template : List Char) (args : List (List Char)) :
    Option (List BackendCall) :=
  (function_name path).map fun fn_name =>
    [⟨Severity.debug, renderFmt template args ++ " [fn ".toList ++ fn_name ++ "]".toList⟩]

/-- Embeds the `info!` macro (src/src/lib.rs lines 114-120); identical to
`debug` except for the targeted sink. -/
def info (path template : List Char) (args : List (List Char)) :
    Option (List BackendCall) :=
  (function_name path).map fun fn_name =>
    [⟨Severity.info, renderFmt template args ++ " [fn ".toList ++ fn_name ++ "]".toList⟩]

/-- Embeds the `error!` macro (src/src/lib.rs lines 137-143); identical to
`debug` except for the targeted sink. -/
def error (path template : List Char) (args : List (List Char)) :
    Option (List BackendCall) :=
  (function_name path).map fun fn_name =>
    [⟨Severity.error, renderFmt template args ++ " [fn ".toList ++ fn_name ++ "]".toList⟩]

/-- Embeds the `warn!` macro (src/src/lib.rs lines 161-167); identical to
`debug` except for the targeted sink. -/
def warn (path template : List Char) (args : List (List Char)) :
    Option (List BackendCall) :=
  (function_name path).map fun fn_name =>
    [⟨Severity.warn, renderFmt template args ++ " [fn ".toList ++ fn_name ++ "]".toList⟩]

/-- Embeds the `trace!` macro (src/src/lib.rs lines 185-191): as `debug` but
composing rendered text, the word ` at `, `[fn `, the name and `]`, and
forwarding once to the trace sink. -/
def trace (path template : List Char) (args : List (List Char)) :
    Option (List BackendCall) :=
  (function_name path).map fun fn_name =>
    [⟨Severity.trace, renderFmt template args ++ " at [fn ".toList ++ fn_name ++ "]".toList⟩]

/-- Executes a list of backend calls against a backend whose sink operation
may fail (for example when the global logger is not yet initialized),
propagating the first failure unchanged. -/
def runCalls {ε : Type} (B : Severity → List Char → Except ε Unit) :
    List BackendCall → Except ε Unit
  | [] => Except.ok ()
  | c :: rest => (B c.sink c.message).bind fun _ => runCalls B rest

/-- Rust `str::split` with a non-empty separator always yields at least one
piece, and so does its embedding. -/
theorem splitOnColons_ne_nil (l : List Char) : splitOnColons l ≠ [] := by
  induction l using splitOnColons.induct with
  | case1 => simp [splitOnColons]
  | case2 c => simp [splitOnColons]
  | case3 c₁ c₂ rest h ih =>
    obtain ⟨h1, h2⟩ := h
    subst h1; subst h2
    simp [splitOnColons]
  | case4 c₁ c₂ rest h heq ih => exact absurd heq ih
  | case5 c₁ c₂ rest h seg segs heq ih =>
    simp only [splitOnColons, if_neg h, heq]
    simp

/-- One-step unfolding of the split on an input with at least two
characters. -/
theorem splitOnColons_cons_cons (c₁ c₂ : Char) (rest : List Char) :
    splitOnColons (c₁ :: c₂ :: rest) =
      if c₁ = ':' ∧ c₂ = ':' then
        [] :: splitOnColons rest
      else
        match splitOnColons (c₂ :: rest) with
        | [] => [[c₁]]
        | seg :: segs => (c₁ :: seg) :: segs := rfl

/-- The first segment produced for a non-empty input is either empty or starts
with the input's first character. -/
theorem splitOnColons_cons_head (c : Char) (rest : List Char) :
    ∃ s ss, splitOnColons (c :: rest) = s :: ss ∧ (s = [] ∨ ∃ t, s = c :: t) := by
  match rest with
  | [] => exact ⟨[c], [], rfl, Or.inr ⟨[], rfl⟩⟩
  | d :: rest' =>
    by_cases h : c = ':' ∧ d = ':'
    · refine ⟨[], splitOnColons rest', ?_, Or.inl rfl⟩
      obtain ⟨h1, h2⟩ := h
      subst h1; subst h2
      simp [splitOnColons]
    · obtain ⟨s, ss, heq⟩ : ∃ s ss, splitOnColons (d :: rest') = s :: ss := by
        cases hsp : splitOnColons (d :: rest') with
        | nil => exact absurd hsp (splitOnColons_ne_nil _)
        | cons s ss => exact ⟨s, ss, rfl⟩
      refine ⟨c :: s, ss, ?_, Or.inr ⟨s, rfl⟩⟩
      simp only [splitOnColons, if_neg h, heq]

/-- A character sequence free of colons is returned by the split as its single
segment. -/
theorem splitOnColons_of_no_colon (g : List Char) :
    ':' ∉ g → splitOnColons g = [g] := by
  induction g using splitOnColons.induct with
  | case1 => intro _; rfl
  | case2 c => intro _; rfl
  | case3 c₁ c₂ rest h ih =>
    intro hg
    exact absurd (h.1 ▸ List.mem_cons_self c₁ (c₂ :: rest)) hg
  | case4 c₁ c₂ rest h heq ih => exact absurd heq (splitOnColons_ne_nil _)
  | case5 c₁ c₂ rest h seg segs heq ih =>
    intro hg
    have hg' : ':' ∉ c₂ :: rest := fun hm => hg (List.mem_cons_of_mem c₁ hm)
    have := (ih hg').symm.trans heq
    obtain ⟨hseg, hsegs⟩ := List.cons.inj this.symm
    subst hseg; subst hsegs
    simp only [splitOnColons, if_neg h, heq]

/-- Splitting `m ++ "::" ++ g`, where `m` does not end in a colon and `g` is
colon-free, yields at least two segments and ends with the segment `g`. -/
theorem splitOnColons_append_sep (m : List Char) :
    ∀ g : List Char, m.getLast? ≠ some ':' → ':' ∉ g →
      ∃ l ls, splitOnColons (m ++ ':' :: ':' :: g) = l :: (ls ++ [g]) := by
  induction m using splitOnColons.induct with
  | case1 =>
    intro g _ hg
    refine ⟨[], [], ?_⟩
    simp only [List.nil_append]
    show splitOnColons (':' :: ':' :: g) = [] :: ([] ++ [g])
    simp [splitOnColons, splitOnColons_of_no_colon g hg]
  | case2 c =>
    intro g hm hg
    have hc : ¬(c = ':' ∧ ':' = ':') := by
      intro hcon
      exact hm (by simp [hcon.1])
    refine ⟨[c], [], ?_⟩
    show splitOnColons (c :: ':' :: ':' :: g) = [c] :: ([] ++ [g])
    have hsub : splitOnColons (':' :: ':' :: g) = [] :: [g] := by
      rw [splitOnColons_cons_cons, if_pos ⟨rfl, rfl⟩, splitOnColons_of_no_colon g hg]
    rw [splitOnColons_cons_cons, if_neg hc, hsub]
    rfl
  | case3 c₁ c₂ rest h ih =>
    intro g hm hg
    obtain ⟨h1, h2⟩ := h
    subst h1; subst h2
    match rest with
    | [] => exact absurd (by rfl) hm
    | d :: rest' =>
      have hm' : (d :: rest').getLast? ≠ some ':' := by
        rwa [List.getLast?_cons_cons, List.getLast?_cons_cons] at hm
      obtain ⟨l, ls, hsplit⟩ := ih g hm' hg
      refine ⟨[], l :: ls, ?_⟩
      show splitOnColons (':' :: ':' :: ((d :: rest') ++ ':' :: ':' :: g))
          = [] :: ((l :: ls) ++ [g])
      simp only [splitOnColons, hsplit]
      simp
  | case4 c₁ c₂ rest h heq ih => exact absurd heq (splitOnColons_ne_nil _)
  | case5 c₁ c₂ rest h seg segs heq ih =>
    intro g hm hg
    have hm' : (c₂ :: rest).getLast? ≠ some ':' := by
      rwa [List.getLast?_cons_cons] at hm
    obtain ⟨l, ls, hsplit⟩ := ih g hm' hg
    refine ⟨c₁ :: l, ls, ?_⟩
    show splitOnColons (c₁ :: ((c₂ :: rest) ++ ':' :: ':' :: g))
        = (c₁ :: l) :: (ls ++ [g])
    have hcons : (c₂ :: rest) ++ ':' :: ':' :: g = c₂ :: (rest ++ ':' :: ':' :: g) := rfl
    rw [hcons]
    simp only [splitOnColons, if_neg h]
    rw [hcons] at hsplit
    simp only [hsplit]

/-- The last segment of the split of `m ++ "::" ++ g` is `g`, when `m` does
not end in a colon and `g` is colon-free. -/
theorem getLast?_splitOnColons_sep (m g : List Char)
    (hm : m.getLast? ≠ some ':') (hg : ':' ∉ g) :
    (splitOnColons (m ++ ':' :: ':' :: g)).getLast? = some g := by
  obtain ⟨l, ls, h⟩ := splitOnColons_append_sep m g hm hg
  rw [h, show l :: (ls ++ [g]) = (l :: ls) ++ [g] from rfl, List.getLast?_concat]

/-- On the path text of a call site directly inside a function `fname` (with a
colon-free name) under a module path not ending in a colon, the resolver
returns exactly `fname`. -/
theorem function_name_at_callSite (mp fname : List Char)
    (hmp : mp.getLast? ≠ some ':') (hf : ':' ∉ fname) :
    function_name (callSitePath mp fname) = some fname := by
  have hform : callSitePath mp fname
      = (mp ++ ':' :: ':' :: fname) ++ [':', ':', 'f'] := by
    simp [callSitePath]
  rw [hform]
  unfold function_name
  have hlen : ((mp ++ ':' :: ':' :: fname) ++ [':', ':', 'f']).length
      = (mp ++ ':' :: ':' :: fname).length + 3 := by simp; omega
  rw [if_neg (by omega)]
  have htake : ((mp ++ ':' :: ':' :: fname) ++ [':', ':', 'f']).take
      (((mp ++ ':' :: ':' :: fname) ++ [':', ':', 'f']).length - 3)
      = mp ++ ':' :: ':' :: fname := by
    rw [hlen, Nat.add_sub_cancel, List.take_left]
  rw [htake]
  exact getLast?_splitOnColons_sep mp fname hmp hf

/-- For path text of length at least 3 the resolver always produces a name:
the guarded model of the strip step succeeds and the last segment of a split
always exists. -/
theorem function_name_isSome_of_length (name : List Char)
    (h : 3 ≤ name.length) : ∃ out, function_name name = some out := by
  unfold function_name
  rw [if_neg (by omega)]
  exact Option.isSome_iff_exists.mp
    (List.getLast?_isSome.mpr (splitOnColons_ne_nil (name.take (name.length - 3))))

/-- Every segment produced by the split is free of adjacent double colons:
the separator is consumed greedily, so no occurrence survives inside a
segment. -/
theorem hasDoubleColon_of_mem_splitOnColons (l : List Char) :
    ∀ seg ∈ splitOnColons l, hasDoubleColon seg = false := by
  induction l using splitOnColons.induct with
  | case1 =>
    intro seg hseg
    simp only [splitOnColons, List.mem_singleton] at hseg
    subst hseg; rfl
  | case2 c =>
    intro seg hseg
    simp only [splitOnColons, List.mem_singleton] at hseg
    subst hseg; rfl
  | case3 c₁ c₂ rest h ih =>
    obtain ⟨h1, h2⟩ := h
    subst h1; subst h2
    intro seg hseg
    rw [splitOnColons_cons_cons, if_pos ⟨rfl, rfl⟩] at hseg
    rcases List.mem_cons.mp hseg with hnil | hmem
    · subst hnil; rfl
    · exact ih seg hmem
  | case4 c₁ c₂ rest h heq ih => exact absurd heq (splitOnColons_ne_nil _)
  | case5 c₁ c₂ rest h seg segs heq ih =>
    intro x hx
    rw [splitOnColons_cons_cons, if_neg h, heq] at hx
    rcases List.mem_cons.mp hx with hhead | hmem
    · subst hhead
      obtain ⟨s, ss, hs, hshape⟩ := splitOnColons_cons_head c₂ rest
      rw [heq] at hs
      obtain ⟨hseg, _⟩ := List.cons.inj hs
      rcases hshape with hnil | ⟨t, ht⟩
      · rw [hseg, hnil]; rfl
      · rw [hseg, ht]
        show hasDoubleColon (c₁ :: c₂ :: t) = false
        have htail : hasDoubleColon (c₂ :: t) = false := by
          have : c₂ :: t ∈ splitOnColons (c₂ :: rest) := by
            rw [heq, hseg, ht]
            exact List.mem_cons_self _ _
          exact ih _ this
        calc hasDoubleColon (c₁ :: c₂ :: t)
            = if c₁ = ':' ∧ c₂ = ':' then true else hasDoubleColon (c₂ :: t) := rfl
          _ = hasDoubleColon (c₂ :: t) := if_neg h
          _ = false := htail
    · exact ih x (heq ▸ List.mem_cons_of_mem seg hmem)

/-- Whatever the resolver returns contains no module separator. -/
theorem function_name_no_doubleColon (name out : List Char)
    (h : function_name name = some out) : hasDoubleColon out = false := by
  unfold function_name at h
  by_cases hlen : name.length < 3
  · rw [if_pos hlen] at h
    exact absurd h (by simp)
  · rw [if_neg hlen] at h
    have hmem : out ∈ splitOnColons (name.take (name.length - 3)) := by
      obtain ⟨hne, hx⟩ := List.mem_getLast?_eq_getLast h
      rw [hx]
      exact List.getLast_mem hne
    exact hasDoubleColon_of_mem_splitOnColons _ out hmem

/-- Executing a single backend call is exactly the backend's own sink call:
a failure there surfaces unchanged, and a success adds nothing. -/
theorem runCalls_single {ε : Type} (B : Severity → List Char → Except ε Unit)
    (c : BackendCall) : runCalls B [c] = B c.sink c.message := by
  show (B c.sink c.message).bind (fun _ => Except.ok ()) = B c.sink c.message
  cases B c.sink c.message with
  | error e => rfl
  | ok u => cases u; rfl

/-- C1: for every function, invoking the debug, info, warn or error operation
with a format template and arguments inside it forwards to the backend exactly
the rendered message followed by a space and `[fn <name>]`; in particular a
`debug!` with template `value=` plus a placeholder and argument `42` inside
`compute` forwards `value=42 [fn compute]` (see the witness). -/
theorem C1_four_severities_append_name (mp fname template : List Char)
    (args : List (List Char))
    (hmp : mp.getLast? ≠ some ':') (hf : ':' ∉ fname) :
    debug (callSitePath mp fname) template args
      = some [⟨Severity.debug,
          renderFmt template args ++ " [fn ".toList ++ fname ++ "]".toList⟩]
    ∧ info (callSitePath mp fname) template args
      = some [⟨Severity.info,
          renderFmt template args ++ " [fn ".toList ++ fname ++ "]".toList⟩]
    ∧ warn (callSitePath mp fname) template args
      = some [⟨Severity.warn,
          renderFmt template args ++ " [fn ".toList ++ fname ++ "]".toList⟩]
    ∧ error (callSitePath mp fname) template args
      = some [⟨Severity.error,
          renderFmt template args ++ " [fn ".toList ++ fname ++ "]".toList⟩] := by
  have h := function_name_at_callSite mp fname hmp hf
  refine ⟨?_, ?_, ?_, ?_⟩ <;> simp [debug, info, warn, error, h]

/-- C1 witness: the `debug!` call of the claim, inside function `compute` of
crate `app`, forwards exactly `value=42 [fn compute]` to the debug sink. -/
theorem C1_four_severities_append_name_witness :
    ("app".toList.getLast? ≠ some ':')
    ∧ (':' ∉ "compute".toList)
    ∧ debug (callSitePath "app".toList "compute".toList)
        "value=\x7b\x7d".toList ["42".toList]
      = some [⟨Severity.debug, "value=42 [fn compute]".toList⟩] :=
  ⟨by decide, by decide,
    (C1_four_severities_append_name "app".toList "compute".toList
      "value=\x7b\x7d".toList ["42".toList] (by decide) (by decide)).1.trans (by decide)⟩

/-- C2: invoking the trace operation inside a function forwards the rendered
message, then the word `at`, then `[fn <name>]` — with `at` inserted, unlike
the other four severities; in particular `trace!` of `start` inside `run`
forwards exactly `start at [fn run]` (see the witness). -/
theorem C2_trace_inserts_at (mp fname template : List Char)
    (args : List (List Char))
    (hmp : mp.getLast? ≠ some ':') (hf : ':' ∉ fname) :
    trace (callSitePath mp fname) template args
      = some [⟨Severity.trace,
          renderFmt template args ++ " at [fn ".toList ++ fname ++ "]".toList⟩] := by
  have h := function_name_at_callSite mp fname hmp hf
  simp [trace, h]

/-- C2 witness: `trace!` of `start` inside function `run` of crate `app`
forwards exactly `start at [fn run]` to the trace sink. -/
theorem C2_trace_inserts_at_witness :
    ("app".toList.getLast? ≠ some ':')
    ∧ (':' ∉ "run".toList)
    ∧ trace (callSitePath "app".toList "run".toList) "start".toList []
      = some [⟨Severity.trace, "start at [fn run]".toList⟩] :=
  ⟨by decide, by decide,
    (C2_trace_inserts_at "app".toList "run".toList "start".toList []
      (by decide) (by decide)).trans (by decide)⟩

/-- C3 counterexample: the claim that the resolver never panics or traps for
any shape of the resolved path text fails.  On the empty path text the
unguarded subtraction and slice of the strip step trap; the embedding returns
`none` — its model of a panic — not a best-effort or sentinel name. -/
theorem C3_no_panic_counterexample : function_name [] = none := by decide

/-- C3 amended: for every resolved path text of length at least 3 the
resolver does not trap and returns a best-effort (possibly empty) name; the
take-last-segment step never fails, but the strip-suffix step is unguarded
and traps exactly on path text shorter than 3 characters. -/
theorem C3_no_panic_amended (name : List Char) (h : 3 ≤ name.length) :
    ∃ out, function_name name = some out :=
  function_name_isSome_of_length name h

/-- C3 amended witness: a 3-character path text resolves without trapping. -/
theorem C3_no_panic_amended_witness :
    3 ≤ "abc".toList.length
    ∧ ∃ out, function_name "abc".toList = some out :=
  ⟨by decide, C3_no_panic_amended "abc".toList (by decide)⟩

/-- C4: on the fully qualified path text of the nested helper — module path,
enclosing function name, and the fixed compile-time helper segment — the
resolver removes the fixed-length three-character suffix, splits the
remainder on the module separator, and returns the last segment: the
unqualified enclosing function name. -/
theorem C4_resolver_returns_enclosing_name (mp fname : List Char)
    (hmp : mp.getLast? ≠ some ':') (hf : ':' ∉ fname) :
    function_name (callSitePath mp fname) = some fname :=
  function_name_at_callSite mp fname hmp hf

/-- C4 witness: under the nested module path `app::outer` the resolver
returns the unqualified name `compute`. -/
theorem C4_resolver_returns_enclosing_name_witness :
    ("app::outer".toList.getLast? ≠ some ':')
    ∧ (':' ∉ "compute".toList)
    ∧ function_name (callSitePath "app::outer".toList "compute".toList)
      = some "compute".toList :=
  ⟨by decide, by decide,
    C4_resolver_returns_enclosing_name "app::outer".toList "compute".toList
      (by decide) (by decide)⟩

/-- C5: the resolver's output is a function of the lexical call position (the
path text) alone: two log calls at the same call site, with different
templates and arguments, are forwarded with the same reported function name
appended. -/
theorem C5_name_independent_of_arguments (path t₁ t₂ : List Char)
    (a₁ a₂ : List (List Char)) (fn : List Char)
    (h : function_name path = some fn) :
    debug path t₁ a₁
      = some [⟨Severity.debug, renderFmt t₁ a₁ ++ " [fn ".toList ++ fn ++ "]".toList⟩]
    ∧ debug path t₂ a₂
      = some [⟨Severity.debug, renderFmt t₂ a₂ ++ " [fn ".toList ++ fn ++ "]".toList⟩] := by
  constructor <;> simp [debug, h]

/-- C5 witness: two debug calls at the same call site, one per branch with
different templates and arguments, both report `[fn branchy]`. -/
theorem C5_name_independent_of_arguments_witness :
    function_name "app::branchy::f".toList = some "branchy".toList
    ∧ debug "app::branchy::f".toList "left".toList []
      = some [⟨Severity.debug, "left [fn branchy]".toList⟩]
    ∧ debug "app::branchy::f".toList "right=\x7b\x7d".toList ["1".toList]
      = some [⟨Severity.debug, "right=1 [fn branchy]".toList⟩] := by
  have h := C5_name_independent_of_arguments "app::branchy::f".toList
    "left".toList "right=\x7b\x7d".toList [] ["1".toList] "branchy".toList (by decide)
  exact ⟨by decide, h.1.trans (by decide), h.2.trans (by decide)⟩

/-- C6: every invocation of any of the five operations performs exactly one
backend call, directed to the sink matching the operation's severity, passing
a single pre-rendered string; the effect list contains nothing else — no
retries, no buffering, no suppression. -/
theorem C6_exactly_one_call_matching_sink (path template : List Char)
    (args : List (List Char)) (fn : List Char)
    (h : function_name path = some fn) :
    trace path template args
      = some [⟨Severity.trace,
          renderFmt template args ++ " at [fn ".toList ++ fn ++ "]".toList⟩]
    ∧ debug path template args
      = some [⟨Severity.debug,
          renderFmt template args ++ " [fn ".toList ++ fn ++ "]".toList⟩]
    ∧ info path template args
      = some [⟨Severity.info,
          renderFmt template args ++ " [fn ".toList ++ fn ++ "]".toList⟩]
    ∧ warn path template args
      = some [⟨Severity.warn,
          renderFmt template args ++ " [fn ".toList ++ fn ++ "]".toList⟩]
    ∧ error path template args
      = some [⟨Severity.error,
          renderFmt template args ++ " [fn ".toList ++ fn ++ "]".toList⟩] := by
  refine ⟨?_, ?_, ?_, ?_, ?_⟩ <;> simp [trace, debug, info, warn, error, h]

/-- C6 witness: one trace call produces exactly one backend call, to the
trace sink. -/
theorem C6_exactly_one_call_matching_sink_witness :
    function_name "app::run::f".toList = some "run".toList
    ∧ trace "app::run::f".toList "go".toList []
      = some [⟨Severity.trace, "go at [fn run]".toList⟩] := by
  have h := C6_exactly_one_call_matching_sink "app::run::f".toList "go".toList []
    "run".toList (by decide)
  exact ⟨by decide, h.1.trans (by decide)⟩

/-- C7: the layer raises no error of its own: for each of the five
operations, executing its effect against an arbitrary fallible backend yields
exactly the backend's own result for the single sink call — nothing is
caught, wrapped or suppressed, so a backend failure has the same visibility
as if the caller had invoked the backend sink directly. -/
theorem C7_backend_failure_surfaces_unchanged {ε : Type}
    (B : Severity → List Char → Except ε Unit) (path template : List Char)
    (args : List (List Char)) (fn : List Char)
    (h : function_name path = some fn) :
    (trace path template args).map (runCalls B)
      = some (B Severity.trace
          (renderFmt template args ++ " at [fn ".toList ++ fn ++ "]".toList))
    ∧ (debug path template args).map (runCalls B)
      = some (B Severity.debug
          (renderFmt template args ++ " [fn ".toList ++ fn ++ "]".toList))
    ∧ (info path template args).map (runCalls B)
      = some (B Severity.info
          (renderFmt template args ++ " [fn ".toList ++ fn ++ "]".toList))
    ∧ (warn path template args).map (runCalls B)
      = some (B Severity.warn
          (renderFmt template args ++ " [fn ".toList ++ fn ++ "]".toList))
    ∧ (error path template args).map (runCalls B)
      = some (B Severity.error
          (renderFmt template args ++ " [fn ".toList ++ fn ++ "]".toList)) := by
  refine ⟨?_, ?_, ?_, ?_, ?_⟩ <;>
    simp [trace, debug, info, warn, error, h, runCalls_single]

/-- C7 witness: against a backend whose sink always fails, a trace invocation
surfaces exactly that failure. -/
theorem C7_backend_failure_surfaces_unchanged_witness :
    function_name "app::run::f".toList = some "run".toList
    ∧ (trace "app::run::f".toList "start".toList []).map
        (runCalls (fun _ _ => Except.error (7 : Nat)))
      = some (Except.error 7) := by
  have h := C7_backend_failure_surfaces_unchanged
    (fun _ _ => Except.error (7 : Nat)) "app::run::f".toList "start".toList []
    "run".toList (by decide)
  exact ⟨by decide, h.1⟩

/-- C8: with the empty format template and no arguments every one of the five
operations still completes — never `none` in the embedding, i.e. no panic —
performing exactly one render and one backend sink call. -/
theorem C8_empty_template_completes (path fn : List Char)
    (h : function_name path = some fn) :
    trace path [] [] = some [⟨Severity.trace, " at [fn ".toList ++ fn ++ "]".toList⟩]
    ∧ debug path [] [] = some [⟨Severity.debug, " [fn ".toList ++ fn ++ "]".toList⟩]
    ∧ info path [] [] = some [⟨Severity.info, " [fn ".toList ++ fn ++ "]".toList⟩]
    ∧ warn path [] [] = some [⟨Severity.warn, " [fn ".toList ++ fn ++ "]".toList⟩]
    ∧ error path [] []
      = some [⟨Severity.error, " [fn ".toList ++ fn ++ "]".toList⟩] := by
  refine ⟨?_, ?_, ?_, ?_, ?_⟩ <;>
    simp [trace, debug, info, warn, error, renderFmt, h]

/-- C8 witness: a debug call with the empty template completes with one
backend call. -/
theorem C8_empty_template_completes_witness :
    function_name "app::run::f".toList = some "run".toList
    ∧ debug "app::run::f".toList [] []
      = some [⟨Severity.debug, " [fn run]".toList⟩] := by
  have h := C8_empty_template_completes "app::run::f".toList "run".toList (by decide)
  exact ⟨by decide, h.2.1.trans (by decide)⟩

/-- C9: splitting any character sequence — the empty one included — on the
module separator yields at least one segment, so the unwrap of the last
segment always succeeds; a resolver trap can only come from the preceding
fixed-length strip step, on path text shorter than 3 characters. -/
theorem C9_last_segment_never_fails :
    (∀ s : List Char, ∃ seg, (splitOnColons s).getLast? = some seg)
    ∧ (∀ name : List Char, function_name name = none → name.length < 3) := by
  constructor
  · intro s
    exact Option.isSome_iff_exists.mp
      (List.getLast?_isSome.mpr (splitOnColons_ne_nil s))
  · intro name h
    by_contra hlen
    obtain ⟨out, hout⟩ := function_name_isSome_of_length name (by omega)
    rw [hout] at h
    exact Option.noConfusion h

/-- C9 witness: the empty sequence still splits into a segment, and a
2-character path text (on which the resolver traps) is shorter than 3. -/
theorem C9_last_segment_never_fails_witness :
    (∃ seg, (splitOnColons []).getLast? = some seg)
    ∧ ("ab".toList.length < 3) :=
  ⟨C9_last_segment_never_fails.1 [],
    C9_last_segment_never_fails.2 "ab".toList (by decide)⟩

/-- C10: for every resolved path text of length at least 3, the name the
resolver returns contains no occurrence of the module separator: it is a
single, fully unqualified segment, however deeply the enclosing function is
nested in modules. -/
theorem C10_output_single_segment (name out : List Char)
    (_hlen : 3 ≤ name.length) (h : function_name name = some out) :
    hasDoubleColon out = false :=
  function_name_no_doubleColon name out h

/-- C10 witness: a deeply nested path resolves to the separator-free segment
`compute`. -/
theorem C10_output_single_segment_witness :
    3 ≤ "app::mod::deep::compute::f".toList.length
    ∧ function_name "app::mod::deep::compute::f".toList = some "compute".toList
    ∧ hasDoubleColon "compute".toList = false :=
  ⟨by decide, by decide,
    C10_output_single_segment "app::mod::deep::compute::f".toList "compute".toList
      (by decide) (by decide)⟩

end TackyBordersLogger
